import Mathlib

/-!
Verification of the fluid-build package/task-execution core
(`tools/fluid-build/src/common/npmPackage.ts`).

The shallow embedding models:
  * `ExecAsyncResult`: the structured result of running an external command,
    with an `error` indicator (truthy = failure);
  * `Package`: a package's relevant state — name, the optional `scripts`
    mapping of its `package.json`, and the two selection flags
    `matched` / `markForBuild`;
  * `Package.getScript`: the unguarded `packageJson.scripts[name]` access
    (a missing `scripts` object faults with a TypeError);
  * the bounded task queue `queueExec` with an explicit completion schedule
    (a permutation of task indices giving the temporal completion order),
    per-promise settlement, and `Promise.all` aggregation;
  * the progress reporter `timedExec` / `numDone` status lines;
  * `Packages.clean` (script filtering, execution, verdict reduction) and
    the sequential branch of `Packages.forEachAsync`.

Asynchrony is made explicit: every place where the JavaScript runtime may
interleave completions takes a schedule parameter, and the theorems
quantify over all schedules.
-/

namespace FluidBuild

/-- Result of `execWithErrorAsync` (the external script executor): carries an
error indicator; `error = true` models a truthy `.error` field. -/
structure ExecAsyncResult where
  error : Bool
deriving Repr, DecidableEq

/-- The reduction step `!results.some(result => result.error)` used by
`Packages.clean` and `Packages.queueExecOnAllPackage`. -/
def reduceToSuccess (results : List ExecAsyncResult) : Bool :=
  !(results.any fun r => r.error)

/-- JavaScript runtime faults relevant to this module. -/
inductive JsError
  | typeError
deriving Repr, DecidableEq

/-- The state of a `Package` instance relevant to the claims: its name, the
`scripts` field of its `package.json` (`none` models a `package.json` with no
`scripts` object at all; a key mapped in the association list models a
declared script entry), and the two private selection flags. -/
structure Package where
  name : String
  scripts : Option (List (String × String))
  matched : Bool
  markForBuild : Bool
deriving Repr, DecidableEq

/-- The `Package` constructor: both `_matched` and `_markForBuild` are
initialized to `false`. -/
def Package.load (name : String) (scripts : Option (List (String × String))) : Package :=
  Package.mk name scripts false false

/-- `setMatched` sets `_matched = true` and `_markForBuild = true`. -/
def Package.setMatched (p : Package) : Package :=
  Package.mk p.name p.scripts true true

/-- `setMarkForBuild` sets only `_markForBuild = true`. -/
def Package.setMarkForBuild (p : Package) : Package :=
  Package.mk p.name p.scripts p.matched true

/-- The mutating operations available on a `Package`'s flags. -/
inductive PackageOp
  | setMatchedOp
  | setMarkForBuildOp
deriving Repr, DecidableEq

/-- Apply one flag operation. -/
def applyOp (p : Package) : PackageOp → Package
  | PackageOp.setMatchedOp => p.setMatched
  | PackageOp.setMarkForBuildOp => p.setMarkForBuild

/-- Apply a sequence of flag operations, oldest first. -/
def applyOps (p : Package) (ops : List PackageOp) : Package :=
  ops.foldl applyOp p

/-- `Package.getScript(name)`, i.e. `this.packageJson.scripts[name]`: the
`scripts` object is dereferenced without a guard, so a `package.json` lacking
`scripts` faults with a TypeError; otherwise the lookup returns the command
string, or `undefined` (`none`) when `name` is not a key. -/
def Package.getScript (p : Package) (s : String) : Except JsError (Option String) :=
  match p.scripts with
  | some m => Except.ok (m.lookup s)
  | none => Except.error JsError.typeError

/-!
The bounded task queue of `queueExec`.

`queueExec` pushes one task per input item onto an `async` queue and pairs it
with a fresh promise; the worker settles exactly the promise of the task it
ran (`taskExec.resolve(await timedExec(taskExec.item))`, or
`taskExec.reject(e)` on a raise), and `Promise.all(p)` is returned over the
promises in submission order.

The temporal completion order of the concurrent tasks is modelled by an
explicit schedule: a list of task indices (a permutation of
`0 .. items.length - 1`) in the order in which the tasks finish. Settlement
is modelled as writing each finished task's outcome (`Except.ok` for a
fulfilled promise, `Except.error` for a rejected one) into the slot of that
task's own promise.
-/

/-- One completion event: the task with index `i` finishes and settles slot
`i` of the promise array with its own outcome. -/
def settleStep {α β ε : Type} (items : List α) (exec : α → Except ε β)
    (acc : List (Option (Except ε β))) (i : Nat) : List (Option (Except ε β)) :=
  match items[i]? with
  | some a => acc.set i (some (exec a))
  | none => acc

/-- The promise array after all completion events of `sched` have happened,
starting from all promises pending (`none`). -/
def settleSchedule {α β ε : Type} (items : List α) (exec : α → Except ε β)
    (sched : List Nat) : List (Option (Except ε β)) :=
  sched.foldl (settleStep items exec) (List.replicate items.length none)

/-- The outcomes actually produced by the worker, in completion order: every
scheduled task runs `exec` on its own item (even after another task has
already rejected). -/
def execLog {α β ε : Type} (items : List α) (exec : α → Except ε β)
    (sched : List Nat) : List (Except ε β) :=
  sched.filterMap (fun i => (items[i]?).map exec)

/-- Whether the settled slot `i` is a rejected promise, and with which
reason. -/
def rejectionAt {β ε : Type} (settled : List (Option (Except ε β))) (i : Nat) : Option ε :=
  match settled[i]? with
  | some (some (Except.error e)) => some e
  | _ => none

/-- The reason of the temporally first rejection: `Promise.all` rejects with
the reason of the first promise (in completion order) to reject. -/
def firstRejection {β ε : Type} (settled : List (Option (Except ε β)))
    (sched : List Nat) : Option ε :=
  sched.findSome? (rejectionAt settled)

/-- `Promise.all(p)`: rejects with the first surfaced rejection; otherwise
fulfills with the fulfilled values in submission (slot) order. -/
def promiseAll {β ε : Type} (settled : List (Option (Except ε β)))
    (sched : List Nat) : Except ε (List β) :=
  match firstRejection settled sched with
  | some e => Except.error e
  | none => Except.ok (settled.filterMap (fun o => o.bind Except.toOption))

/-- `queueExec` under completion schedule `sched`: settle every task's
promise with its own outcome, then aggregate with `Promise.all`. -/
def queueExec {α β ε : Type} (items : List α) (exec : α → Except ε β)
    (sched : List Nat) : Except ε (List β) :=
  promiseAll (settleSchedule items exec sched) sched

/-- Rendering of `elapsedTime.toFixed(3)` for an elapsed time of `ms` whole
milliseconds: the integer seconds, a dot, and exactly three fractional
digits. -/
def toFixed3 (ms : Nat) : String :=
  toString (ms / 1000) ++ "." ++ String.mk
    [Nat.digitChar (ms % 1000 / 100), Nat.digitChar (ms % 1000 / 10 % 10),
     Nat.digitChar (ms % 10)]

/-- One status line as passed to `logStatus`: completion index, batch size,
caller-supplied label and rendered elapsed time. -/
structure StatusLine where
  doneIndex : Nat
  total : Nat
  label : String
  elapsed : String
deriving Repr, DecidableEq

/-- The rendered text of a status line,
`[numDone/total] label - elapseds`. -/
def renderStatusLine (l : StatusLine) : String :=
  "[" ++ toString l.doneIndex ++ "/" ++ toString l.total ++ "] " ++ l.label
    ++ " - " ++ l.elapsed ++ "s"

/-- Body of `timedExec`: await the wrapped operation; on fulfilment increment
`numDone` and emit one status line; on rejection the `await` re-raises, so
nothing is logged and the counter is untouched. The operation's outcome is
returned unaltered either way. -/
def timedExec {α β ε : Type} (exec : α → Except ε β) (f : α → String)
    (numDone total dur : Nat) (a : α) : Except ε β × List StatusLine :=
  match exec a with
  | Except.ok r => (Except.ok r, [StatusLine.mk (numDone + 1) total (f a) (toFixed3 dur)])
  | Except.error err => (Except.error err, [])

/-- One completion event of a reporting batch: run `timedExec` on the
finished task, append its status output (if any) and advance the shared
counter once per emitted line (the `++numDone` inside the logging call). -/
def statusStep {α β ε : Type} (items : List α) (exec : α → Except ε β) (f : α → String)
    (durs : Nat → Nat) (st : Nat × List StatusLine) (i : Nat) : Nat × List StatusLine :=
  match items[i]? with
  | some a =>
    (st.1 + (timedExec exec f st.1 items.length (durs i) a).2.length,
     st.2 ++ (timedExec exec f st.1 items.length (durs i) a).2)
  | none => st

/-- The status lines emitted by a `queueExec` batch under completion schedule
`sched`: none when no message callback is supplied (the operation runs
unwrapped); otherwise the `timedExec`-wrapped operations log in completion
order against the shared counter starting at 0. `durs i` is the elapsed
wall-clock time of task `i` in milliseconds. -/
def queueExecLines {α β ε : Type} (items : List α) (exec : α → Except ε β)
    (cb : Option (α → String)) (durs : Nat → Nat) (sched : List Nat) : List StatusLine :=
  match cb with
  | none => []
  | some f => (sched.foldl (statusStep items exec f durs) (0, [])).2

/-- The final value of the shared `numDone` counter of a `queueExec` batch
(0 when no callback is supplied: the unwrapped operation never touches
it). -/
def queueExecNumDone {α β ε : Type} (items : List α) (exec : α → Except ε β)
    (cb : Option (α → String)) (durs : Nat → Nat) (sched : List Nat) : Nat :=
  match cb with
  | none => 0
  | some f => (sched.foldl (statusStep items exec f durs) (0, [])).1

/-- JavaScript truthiness of a `string | undefined` value, as tested by
`if (cleanScript)`: `undefined` and the empty string are falsy. -/
def truthyScript : Option String → Option String
  | some s => if s = "" then none else some s
  | none => none

/-- The operations pushed by the loop of `Packages.clean`: for each package
in order, `getScript("clean")` (which may fault), then push the package and
its script when the script value is truthy. -/
def cleanOps : List Package → Except JsError (List (Package × String))
  | [] => Except.ok []
  | pkg :: rest =>
    match pkg.getScript "clean" with
    | Except.error err => Except.error err
    | Except.ok cs =>
      match cleanOps rest with
      | Except.error err => Except.error err
      | Except.ok tail =>
        match truthyScript cs with
        | some scr => Except.ok ((pkg, scr) :: tail)
        | none => Except.ok tail

/-- `Packages.clean`: run the clean script of every package that truthily
declares one (`execer` models `execWithErrorAsync`, which captures failures
as data and never throws), await all results, and reduce them to the overall
verdict. -/
def Packages.clean (execer : Package → String → ExecAsyncResult)
    (packages : List Package) : Except JsError Bool :=
  match cleanOps packages with
  | Except.error err => Except.error err
  | Except.ok ops =>
    Except.ok (reduceToSuccess (ops.map (fun op => execer op.1 op.2)))

/-- Specification-side characterisation of the packages `Packages.clean`
includes: those whose `scripts` mapping has a truthy (declared and
non-empty) "clean" entry, paired with that entry. -/
def truthyClean (p : Package) : Option (Package × String) :=
  match p.scripts with
  | some m => (truthyScript (m.lookup "clean")).map (fun scr => (p, scr))
  | none => none

/-- The label of a status line of `Packages.clean`: the package name and its
clean script. -/
def cleanLabel (op : Package × String) : String :=
  op.1.name ++ ": " ++ op.2

/-- The final counter and status lines of `Packages.clean` with `status`
output on, under completion schedule `sched` over the included operations:
the executor never throws, so every scheduled completion logs one line
against the shared `numDone`. -/
def cleanStatus (execer : Package → String → ExecAsyncResult) (durs : Nat → Nat)
    (packages : List Package) (sched : List Nat) :
    Except JsError (Nat × List StatusLine) :=
  match cleanOps packages with
  | Except.error err => Except.error err
  | Except.ok ops =>
    Except.ok (sched.foldl
      (statusStep ops
        (fun op => (Except.ok (execer op.1 op.2) : Except JsError ExecAsyncResult))
        cleanLabel durs)
      (0, []))

/-- The `parallel = false` branch of `Packages.forEachAsync`, instrumented
with wall-clock time: starting at time `t`, await each package's operation
(taking `dur` of time) to completion before starting the next, pushing
results in collection order; failures are data inside the result value. The
second component lists each operation's (start, end) interval. -/
def forEachAsyncSeq {α β : Type} (exec : α → β) (dur : α → Nat) :
    Nat → List α → List β × List (Nat × Nat)
  | _, [] => ([], [])
  | t, p :: rest =>
    (exec p :: (forEachAsyncSeq exec dur (t + dur p) rest).1,
     (t, t + dur p) :: (forEachAsyncSeq exec dur (t + dur p) rest).2)

/-- `Packages.forEachAsync` with `parallel = false`, starting at time 0. -/
def forEachAsyncSequential {α β : Type} (packages : List α) (exec : α → β)
    (dur : α → Nat) : List β × List (Nat × Nat) :=
  forEachAsyncSeq exec dur 0 packages

/-- State of the bounded `async` queue: the FIFO backlog of not-yet-started
tasks, the tasks currently in flight, and the log of start events in
order. -/
structure QueueState where
  pending : List Nat
  running : List Nat
  started : List Nat
deriving Repr, DecidableEq

/-- Steps of the bounded queue with concurrency limit `K`: a task may start
only when a lane is free (fewer than `K` in flight) and only from the head
of the backlog; any in-flight task may finish. -/
inductive QStep (K : Nat) : QueueState → QueueState → Prop
  | start (s : QueueState) (t : Nat) (rest : List Nat)
      (hp : s.pending = t :: rest) (hK : s.running.length < K) :
      QStep K s (QueueState.mk rest (s.running ++ [t]) (s.started ++ [t]))
  | finish (s : QueueState) (t : Nat) (ht : t ∈ s.running) :
      QStep K s (QueueState.mk s.pending (s.running.erase t) s.started)

/-- Initial queue state: tasks `0 .. n-1` submitted in order, none yet
started. -/
def initQueue (n : Nat) : QueueState :=
  QueueState.mk (List.range n) [] []

/-- Reachability of a queue state from the initial state by queue steps. -/
def QueueReachable (K n : Nat) (s : QueueState) : Prop :=
  Relation.ReflTransGen (QStep K) (initQueue n) s

/-- Specification-side characterisation of the status lines a reporting
batch appends when the shared counter starts at `c` and the (all
fulfilling) tasks of `sched` complete in order. -/
def linesFrom {α : Type} (items : List α) (f : α → String) (durs : Nat → Nat)
    (total : Nat) : Nat → List Nat → List StatusLine
  | _, [] => []
  | c, i :: rest =>
    match items[i]? with
    | some a =>
      StatusLine.mk (c + 1) total (f a) (toFixed3 (durs i))
        :: linesFrom items f durs total (c + 1) rest
    | none => linesFrom items f durs total c rest

/-- Concrete items for the C4 witness. -/
def witnessItems : List Nat := [1, 2, 3]

/-- Concrete operation for the C4 witness: item 2 rejects, the others
fulfill. -/
def witnessExec (a : Nat) : Except String Nat :=
  if a = 2 then Except.error "boom" else Except.ok a

/-- The 5-package scenario of claim C3: packages "a" and "c" declare
succeeding clean scripts, "d" declares a failing one, "b" and "e" do not
declare a clean script. -/
def scenarioPackages : List Package :=
  [Package.load "a" (some [("clean", "rimraf dist")]),
   Package.load "b" (some [("build", "tsc")]),
   Package.load "c" (some [("clean", "rimraf lib")]),
   Package.load "d" (some [("clean", "failing-clean")]),
   Package.load "e" (some [("test", "mocha")])]

/-- The scenario executor: only the script "failing-clean" reports an
error. -/
def scenarioExecer (_pkg : Package) (scr : String) : ExecAsyncResult :=
  ExecAsyncResult.mk (scr == "failing-clean")

/-- Concrete package list for the C5 witness. -/
def counterPackages : List Package :=
  [Package.load "p" (some [("clean", "make clean")]),
   Package.load "q" (some [("clean", "make distclean")])]

/-- The operations `Packages.clean` includes for `counterPackages`. -/
def counterOps : List (Package × String) :=
  [(Package.load "p" (some [("clean", "make clean")]), "make clean"),
   (Package.load "q" (some [("clean", "make distclean")]), "make distclean")]

/-- Queue state for the C9 witness: task 0 started and in flight, task 1
still pending. -/
def witnessQueueState : QueueState :=
  QueueState.mk [1] [0] [0]

end FluidBuild

namespace FluidBuild

/-- Claim C1: the reduction to an overall verdict returns `false` iff at least
one result has a truthy error indicator; it returns `true` for the empty
result list and for any list in which every result's error indicator is
falsy. -/
theorem reduceToSuccess_correct (results : List ExecAsyncResult) :
    (reduceToSuccess results = false ↔ ∃ r ∈ results, r.error = true)
    ∧ reduceToSuccess [] = true
    ∧ ((∀ r ∈ results, r.error = false) → reduceToSuccess results = true) := by
  refine ⟨?_, rfl, ?_⟩
  · simp [reduceToSuccess]
  · intro h
    simp only [reduceToSuccess, Bool.not_eq_true', List.any_eq_false]
    intro r hr
    simpa using h r hr

/-- Witness for C1 at a concrete two-element result list containing one
failure. -/
theorem reduceToSuccess_correct_witness :
    (reduceToSuccess [ExecAsyncResult.mk true, ExecAsyncResult.mk false] = false
      ↔ ∃ r ∈ [ExecAsyncResult.mk true, ExecAsyncResult.mk false], r.error = true)
    ∧ reduceToSuccess [] = true
    ∧ ((∀ r ∈ [ExecAsyncResult.mk true, ExecAsyncResult.mk false], r.error = false)
        → reduceToSuccess [ExecAsyncResult.mk true, ExecAsyncResult.mk false] = true) :=
  reduceToSuccess_correct [ExecAsyncResult.mk true, ExecAsyncResult.mk false]

/-- Claim C8: every `Package` starts with `matched = false` and
`markForBuild = false`; `setMatched` sets both flags, `setMarkForBuild` sets
only `markForBuild`; no operation ever clears either flag; hence
`matched ⇒ markForBuild` holds after every sequence of operations. -/
theorem package_flags_invariant (nm : String) (scr : Option (List (String × String)))
    (ops : List PackageOp) :
    (Package.load nm scr).matched = false
    ∧ (Package.load nm scr).markForBuild = false
    ∧ (∀ p : Package, (applyOp p PackageOp.setMatchedOp).matched = true
        ∧ (applyOp p PackageOp.setMatchedOp).markForBuild = true)
    ∧ (∀ p : Package, (applyOp p PackageOp.setMarkForBuildOp).markForBuild = true
        ∧ (applyOp p PackageOp.setMarkForBuildOp).matched = p.matched)
    ∧ (∀ (p : Package) (op : PackageOp),
        (p.matched = true → (applyOp p op).matched = true)
        ∧ (p.markForBuild = true → (applyOp p op).markForBuild = true))
    ∧ ((applyOps (Package.load nm scr) ops).matched = true
        → (applyOps (Package.load nm scr) ops).markForBuild = true) := by
  refine ⟨rfl, rfl, fun p => ⟨rfl, rfl⟩, fun p => ⟨rfl, rfl⟩, ?_, ?_⟩
  · intro p op
    cases op
    · exact ⟨fun h => rfl, fun h => rfl⟩
    · exact ⟨fun h => h, fun h => rfl⟩
  · suffices h : ∀ (l : List PackageOp) (p : Package),
        (p.matched = true → p.markForBuild = true)
        → ((applyOps p l).matched = true → (applyOps p l).markForBuild = true) by
      exact h ops (Package.load nm scr) (by intro hc; cases hc)
    intro l
    induction l with
    | nil => intro p hp; exact hp
    | cons op rest ih =>
      intro p hp
      refine ih (applyOp p op) ?_
      cases op <;> intro _ <;> rfl

/-- Witness for C8: a concrete operation sequence ending in `setMatched`. -/
theorem package_flags_invariant_witness :
    (Package.load "pkg" none).matched = false
    ∧ (Package.load "pkg" none).markForBuild = false
    ∧ (∀ p : Package, (applyOp p PackageOp.setMatchedOp).matched = true
        ∧ (applyOp p PackageOp.setMatchedOp).markForBuild = true)
    ∧ (∀ p : Package, (applyOp p PackageOp.setMarkForBuildOp).markForBuild = true
        ∧ (applyOp p PackageOp.setMarkForBuildOp).matched = p.matched)
    ∧ (∀ (p : Package) (op : PackageOp),
        (p.matched = true → (applyOp p op).matched = true)
        ∧ (p.markForBuild = true → (applyOp p op).markForBuild = true))
    ∧ ((applyOps (Package.load "pkg" none)
          [PackageOp.setMarkForBuildOp, PackageOp.setMatchedOp]).matched = true
        → (applyOps (Package.load "pkg" none)
          [PackageOp.setMarkForBuildOp, PackageOp.setMatchedOp]).markForBuild = true) :=
  package_flags_invariant "pkg" none [PackageOp.setMarkForBuildOp, PackageOp.setMatchedOp]

/-- Claim C10: `getScript` dereferences `packageJson.scripts` without a guard:
when the `scripts` object is present it totally returns the command string
for `name` (or `undefined` when `name` is not a key), but when `package.json`
has no `scripts` field at all, every call faults with a TypeError instead of
returning `undefined`. -/
theorem getScript_unguarded (p : Package) (s : String) :
    (∀ m, p.scripts = some m → p.getScript s = Except.ok (m.lookup s))
    ∧ (p.scripts = none → p.getScript s = Except.error JsError.typeError) := by
  constructor
  · intro m hm
    simp [Package.getScript, hm]
  · intro hm
    simp [Package.getScript, hm]

/-- Witness for C10: a package with a `scripts` object resolves the lookup;
a package without one faults. -/
theorem getScript_unguarded_witness :
    ((∀ m, (Package.load "a" (some [("clean", "rimraf dist")])).scripts = some m
        → (Package.load "a" (some [("clean", "rimraf dist")])).getScript "clean"
          = Except.ok (m.lookup "clean"))
      ∧ ((Package.load "a" (some [("clean", "rimraf dist")])).scripts = none
        → (Package.load "a" (some [("clean", "rimraf dist")])).getScript "clean"
          = Except.error JsError.typeError))
    ∧ ((∀ m, (Package.load "b" none).scripts = some m
        → (Package.load "b" none).getScript "clean" = Except.ok (m.lookup "clean"))
      ∧ ((Package.load "b" none).scripts = none
        → (Package.load "b" none).getScript "clean" = Except.error JsError.typeError)) :=
  ⟨getScript_unguarded (Package.load "a" (some [("clean", "rimraf dist")])) "clean",
   getScript_unguarded (Package.load "b" none) "clean"⟩

/-- A step that settles a different slot leaves slot `j` unchanged. -/
theorem settleStep_getElem_ne {α β ε : Type} (items : List α) (exec : α → Except ε β)
    (acc : List (Option (Except ε β))) (i j : Nat) (hne : i ≠ j) :
    (settleStep items exec acc i)[j]? = acc[j]? := by
  unfold settleStep
  cases h : items[i]? with
  | none => rfl
  | some a => simp [List.getElem?_set_ne hne]

/-- Settling preserves the length of the promise array. -/
theorem settleStep_length {α β ε : Type} (items : List α) (exec : α → Except ε β)
    (acc : List (Option (Except ε β))) (i : Nat) :
    (settleStep items exec acc i).length = acc.length := by
  unfold settleStep
  cases h : items[i]? <;> simp

/-- Folding completion events preserves the length of the promise array. -/
theorem settle_foldl_length {α β ε : Type} (items : List α) (exec : α → Except ε β) :
    ∀ (sched : List Nat) (acc : List (Option (Except ε β))),
      (sched.foldl (settleStep items exec) acc).length = acc.length := by
  intro sched
  induction sched with
  | nil => intro acc; rfl
  | cons i rest ih =>
    intro acc
    rw [List.foldl_cons, ih, settleStep_length]

/-- A slot never scheduled keeps its initial content. -/
theorem settle_foldl_not_mem {α β ε : Type} (items : List α) (exec : α → Except ε β) :
    ∀ (sched : List Nat) (acc : List (Option (Except ε β))) (j : Nat), j ∉ sched →
      (sched.foldl (settleStep items exec) acc)[j]? = acc[j]? := by
  intro sched
  induction sched with
  | nil => intro acc j _; rfl
  | cons i rest ih =>
    intro acc j hj
    have hne : i ≠ j := fun h => hj (h ▸ List.mem_cons_self i rest)
    have hrest : j ∉ rest := fun h => hj (List.mem_cons_of_mem i h)
    rw [List.foldl_cons, ih _ j hrest, settleStep_getElem_ne items exec acc i j hne]

/-- A scheduled slot ends up settled with its own task's outcome — no other
task's completion can overwrite it. -/
theorem settle_foldl_mem {α β ε : Type} (items : List α) (exec : α → Except ε β) :
    ∀ (sched : List Nat) (acc : List (Option (Except ε β))) (j : Nat) (a : α),
      j < acc.length → items[j]? = some a → j ∈ sched →
      (sched.foldl (settleStep items exec) acc)[j]? = some (some (exec a)) := by
  intro sched
  induction sched with
  | nil => intro acc j a _ _ hj; cases hj
  | cons i rest ih =>
    intro acc j a hlen ha hj
    rw [List.foldl_cons]
    by_cases hr : j ∈ rest
    · exact ih _ j a (by rw [settleStep_length]; exact hlen) ha hr
    · have hij : i = j := by
        rcases List.mem_cons.mp hj with h | h
        · exact h.symm
        · exact absurd h hr
      subst hij
      rw [settle_foldl_not_mem items exec rest _ i hr]
      unfold settleStep
      rw [ha]
      simp [List.getElem?_set_self hlen]

/-- Under a complete schedule (a permutation of all task indices), every
promise settles with the outcome of its own item, in submission order. -/
theorem settleSchedule_eq_map {α β ε : Type} (items : List α) (exec : α → Except ε β)
    (sched : List Nat) (hperm : sched.Perm (List.range items.length)) :
    settleSchedule items exec sched = items.map (fun a => some (exec a)) := by
  apply List.ext_getElem?
  intro j
  rw [List.getElem?_map]
  by_cases hj : j < items.length
  · have hmem : j ∈ sched := hperm.mem_iff.mpr (List.mem_range.mpr hj)
    have ha : items[j]? = some items[j] := List.getElem?_eq_getElem hj
    rw [settleSchedule,
      settle_foldl_mem items exec sched _ j items[j] (by simpa using hj) ha hmem, ha]
    rfl
  · have h1 : (settleSchedule items exec sched).length = items.length := by
      rw [settleSchedule, settle_foldl_length]; simp
    rw [List.getElem?_eq_none (by omega : items.length ≤ j),
      List.getElem?_eq_none (by omega : (settleSchedule items exec sched).length ≤ j)]
    rfl

/-- Every scheduled valid task contributes one outcome to the execution
log. -/
theorem execLog_length {α β ε : Type} (items : List α) (exec : α → Except ε β) :
    ∀ (sched : List Nat), (∀ i ∈ sched, i < items.length) →
      (execLog items exec sched).length = sched.length := by
  intro sched
  induction sched with
  | nil => intro _; rfl
  | cons i rest ih =>
    intro h
    have hi : i < items.length := h i (List.mem_cons_self i rest)
    have ha : items[i]? = some items[i] := List.getElem?_eq_getElem hi
    have hrest := ih (fun k hk => h k (List.mem_cons_of_mem i hk))
    simp only [execLog] at hrest
    simp [execLog, List.filterMap_cons, ha, hrest]

/-- Claim C2: for every finite sequence of `N` input items and every
operation, `queueExec` returns an array of length `N` whose `i`-th entry is
the outcome of applying the operation to the `i`-th input item, independent
of the completion order of the concurrent operations. -/
theorem queueExec_preserves_input_order (α β ε : Type) (items : List α) (exec : α → β)
    (sched : List Nat) (hperm : sched.Perm (List.range items.length)) :
    ∃ out : List β,
      queueExec items (fun a => (Except.ok (exec a) : Except ε β)) sched = Except.ok out
      ∧ out.length = items.length
      ∧ ∀ i : Nat, out[i]? = (items[i]?).map exec := by
  refine ⟨items.map exec, ?_, by simp, by simp⟩
  have hsettle := settleSchedule_eq_map items
    (fun a => (Except.ok (exec a) : Except ε β)) sched hperm
  have hnone : firstRejection
      (settleSchedule items (fun a => (Except.ok (exec a) : Except ε β)) sched) sched
      = none := by
    rw [hsettle]
    apply List.findSome?_eq_none_iff.mpr
    intro i _
    unfold rejectionAt
    rw [List.getElem?_map]
    cases h : items[i]? with
    | none => rfl
    | some a => rfl
  rw [queueExec, promiseAll, hnone, hsettle, List.filterMap_map]
  have hcomp : ((fun o : Option (Except ε β) => o.bind Except.toOption)
      ∘ fun a : α => some ((fun a => (Except.ok (exec a) : Except ε β)) a))
      = some ∘ exec := by
    funext a
    rfl
  rw [hcomp, List.filterMap_eq_map]

/-- Witness for C2: three items, doubled, completing in the order 2, 0, 1. -/
theorem queueExec_preserves_input_order_witness :
    ∃ out : List Nat,
      queueExec [10, 20, 30] (fun a => (Except.ok (a + 1) : Except Unit Nat)) [2, 0, 1]
        = Except.ok out
      ∧ out.length = ([10, 20, 30] : List Nat).length
      ∧ ∀ i : Nat, out[i]? = (([10, 20, 30] : List Nat)[i]?).map (fun a => a + 1) :=
  queueExec_preserves_input_order Nat Nat Unit [10, 20, 30] (fun a => a + 1) [2, 0, 1]
    (by decide)

/-- Claim C4: if the operation applied to one item rejects, only that item's
own promise is rejected — every slot settles with its own item's outcome and
every submitted operation still runs — but the aggregate promise returned by
`queueExec` rejects with the first surfaced per-item rejection. -/
theorem queueExec_fail_fast_isolation (α β ε : Type) (items : List α)
    (exec : α → Except ε β) (s1 s2 : List Nat) (j : Nat) (e : ε)
    (hperm : (s1 ++ j :: s2).Perm (List.range items.length))
    (hok : ∀ i ∈ s1, ∀ a, items[i]? = some a → (exec a).isOk = true)
    (hj : ∃ a, items[j]? = some a ∧ exec a = Except.error e) :
    (∀ i : Nat, (settleSchedule items exec (s1 ++ j :: s2))[i]?
        = (items[i]?).map (fun a => some (exec a)))
    ∧ (execLog items exec (s1 ++ j :: s2)).length = items.length
    ∧ queueExec items exec (s1 ++ j :: s2) = Except.error e := by
  have hsettle := settleSchedule_eq_map items exec (s1 ++ j :: s2) hperm
  have hvalid : ∀ i ∈ s1 ++ j :: s2, i < items.length := by
    intro i hi
    exact List.mem_range.mp (hperm.mem_iff.mp hi)
  refine ⟨?_, ?_, ?_⟩
  · intro i
    rw [hsettle, List.getElem?_map]
  · rw [execLog_length items exec (s1 ++ j :: s2) hvalid, hperm.length_eq,
      List.length_range]
  · have hfr : firstRejection (settleSchedule items exec (s1 ++ j :: s2))
        (s1 ++ j :: s2) = some e := by
      rw [hsettle, firstRejection, List.findSome?_append]
      have h1 : s1.findSome? (rejectionAt (items.map fun a => some (exec a))) = none := by
        apply List.findSome?_eq_none_iff.mpr
        intro i hi
        have hil : i < items.length := hvalid i (List.mem_append_left _ hi)
        have ha : items[i]? = some items[i] := List.getElem?_eq_getElem hil
        have hoki := hok i hi items[i] ha
        unfold rejectionAt
        rw [List.getElem?_map, ha]
        simp only [Option.map_some']
        cases hx : exec items[i] with
        | ok b => rfl
        | error e2 =>
          rw [hx] at hoki
          simp [Except.isOk, Except.toBool] at hoki
      obtain ⟨a, ha, hae⟩ := hj
      have h2 : rejectionAt (items.map fun a => some (exec a)) j = some e := by
        unfold rejectionAt
        rw [List.getElem?_map, ha]
        simp [hae]
      rw [h1, Option.none_or, List.findSome?_cons, h2]
    rw [queueExec, promiseAll, hfr]


/-- Witness for C4: the failing task completes first (schedule 1, 0, 2); the
aggregate rejects with its reason while every slot still settles with its own
outcome. -/
theorem queueExec_fail_fast_isolation_witness :
    (∀ i : Nat, (settleSchedule witnessItems witnessExec ([] ++ 1 :: [0, 2]))[i]?
        = (witnessItems[i]?).map (fun a => some (witnessExec a)))
    ∧ (execLog witnessItems witnessExec ([] ++ 1 :: [0, 2])).length = witnessItems.length
    ∧ queueExec witnessItems witnessExec ([] ++ 1 :: [0, 2]) = Except.error "boom" :=
  queueExec_fail_fast_isolation Nat Nat String witnessItems witnessExec [] [0, 2] 1 "boom"
    (by decide) (by simp) ⟨2, rfl, rfl⟩

/-- The results of the sequential branch are pushed in collection order. -/
theorem forEachAsyncSeq_results {α β : Type} (exec : α → β) (dur : α → Nat) :
    ∀ (l : List α) (t : Nat), (forEachAsyncSeq exec dur t l).1 = l.map exec := by
  intro l
  induction l with
  | nil => intro t; rfl
  | cons p rest ih =>
    intro t
    simp [forEachAsyncSeq, ih]

/-- Every interval of a sequential run starting at `t` starts no earlier
than `t` and ends no earlier than it starts. -/
theorem forEachAsyncSeq_interval_bounds {α β : Type} (exec : α → β) (dur : α → Nat) :
    ∀ (l : List α) (t : Nat), ∀ iv ∈ (forEachAsyncSeq exec dur t l).2,
      t ≤ iv.1 ∧ iv.1 ≤ iv.2 := by
  intro l
  induction l with
  | nil => intro t iv hiv; cases hiv
  | cons p rest ih =>
    intro t iv hiv
    rcases List.mem_cons.mp hiv with h | h
    · subst h
      exact ⟨Nat.le_refl t, Nat.le_add_right t (dur p)⟩
    · have hb := ih (t + dur p) iv h
      exact ⟨Nat.le_trans (Nat.le_add_right t (dur p)) hb.1, hb.2⟩

/-- Claim C7: `Packages.forEachAsync` with `parallel = false` executes the
operations strictly one at a time in collection order — each operation ends
before the next starts, so no two execution intervals overlap — and a
failure captured inside one package's result value does not prevent any
subsequent package's operation from running: the result list is exactly the
map of the operation over the collection, in collection order. -/
theorem forEachAsync_sequential_serialized {α β : Type} (packages : List α)
    (exec : α → β) (dur : α → Nat) :
    (forEachAsyncSequential packages exec dur).1 = packages.map exec
    ∧ (forEachAsyncSequential packages exec dur).2.length = packages.length
    ∧ (∀ iv ∈ (forEachAsyncSequential packages exec dur).2, iv.1 ≤ iv.2)
    ∧ List.Pairwise (fun a b => a.2 ≤ b.1)
        (forEachAsyncSequential packages exec dur).2 := by
  have hlen : ∀ (l : List α) (t : Nat), (forEachAsyncSeq exec dur t l).2.length = l.length := by
    intro l
    induction l with
    | nil => intro t; rfl
    | cons p rest ih =>
      intro t
      simp [forEachAsyncSeq, ih]
  have hpw : ∀ (l : List α) (t : Nat),
      List.Pairwise (fun a b => a.2 ≤ b.1) (forEachAsyncSeq exec dur t l).2 := by
    intro l
    induction l with
    | nil => intro t; exact List.Pairwise.nil
    | cons p rest ih =>
      intro t
      refine List.Pairwise.cons ?_ (ih (t + dur p))
      intro iv hiv
      exact (forEachAsyncSeq_interval_bounds exec dur rest (t + dur p) iv hiv).1
  refine ⟨forEachAsyncSeq_results exec dur packages 0, hlen packages 0, ?_, hpw packages 0⟩
  intro iv hiv
  exact (forEachAsyncSeq_interval_bounds exec dur packages 0 iv hiv).2

/-- Witness for C7: two packages with durations 5 and 3. -/
theorem forEachAsync_sequential_serialized_witness :
    (forEachAsyncSequential ["u", "v"] String.length (fun _ => 5)).1
        = (["u", "v"] : List String).map String.length
    ∧ (forEachAsyncSequential ["u", "v"] String.length (fun _ => 5)).2.length
        = (["u", "v"] : List String).length
    ∧ (∀ iv ∈ (forEachAsyncSequential ["u", "v"] String.length (fun _ => 5)).2,
        iv.1 ≤ iv.2)
    ∧ List.Pairwise (fun a b => a.2 ≤ b.1)
        (forEachAsyncSequential ["u", "v"] String.length (fun _ => 5)).2 :=
  forEachAsync_sequential_serialized ["u", "v"] String.length (fun _ => 5)

/-- Claim C9: with concurrency limit `K ≥ 1`, in every reachable state of
the bounded queue at most `K` tasks are in flight, and tasks are started in
submission order: the start log is always a prefix of the submission order,
with the backlog holding exactly the not-yet-started suffix. -/
theorem bounded_queue_concurrency_invariant (K n : Nat) (s : QueueState)
    (_hK : 1 ≤ K) (h : QueueReachable K n s) :
    s.running.length ≤ K
    ∧ s.started ++ s.pending = List.range n
    ∧ s.started = (List.range n).take s.started.length := by
  have main : s.running.length ≤ K ∧ s.started ++ s.pending = List.range n := by
    induction h with
    | refl => exact ⟨Nat.zero_le K, rfl⟩
    | tail hsteps hstep ih =>
      cases hstep with
      | start t rest hp hKlt =>
        refine ⟨?_, ?_⟩
        · simpa [List.length_append] using Nat.succ_le_of_lt hKlt
        · have h2 := ih.2
          rw [hp] at h2
          simpa [List.append_assoc] using h2
      | finish t ht =>
        exact ⟨Nat.le_trans (List.length_erase_le t _) ih.1, ih.2⟩
  refine ⟨main.1, main.2, ?_⟩
  conv_lhs => rw [← List.take_left s.started s.pending]
  rw [main.2]

/-- Witness for C9 at `K = 1`, `n = 2`, in the state reached after starting
task 0. -/
theorem bounded_queue_concurrency_invariant_witness :
    witnessQueueState.running.length ≤ 1
    ∧ witnessQueueState.started ++ witnessQueueState.pending = List.range 2
    ∧ witnessQueueState.started
        = (List.range 2).take witnessQueueState.started.length :=
  bounded_queue_concurrency_invariant 1 2 witnessQueueState (by decide)
    (Relation.ReflTransGen.single
      (QStep.start (initQueue 2) 0 [1] (by decide) (by decide)))

/-- Counterexample to claim C3 as stated: a package that declares a "clean"
entry whose value is the empty string. The entry is declared in the script
mapping, yet the JavaScript truthiness test `if (cleanScript)` skips it: no
operation is pushed for it, and an executor that would report an error for
every script it runs is never consulted, so the verdict is vacuously
true. -/
theorem clean_declared_empty_script_not_executed :
    (Package.load "e" (some [("clean", "")])).scripts = some [("clean", "")]
    ∧ cleanOps [Package.load "e" (some [("clean", "")])] = Except.ok []
    ∧ Packages.clean (fun _ _ => ExecAsyncResult.mk true)
        [Package.load "e" (some [("clean", "")])] = Except.ok true :=
  ⟨rfl, rfl, rfl⟩

/-- Claim C3 (amended): when every package has a `scripts` object, exactly
those packages whose mapping declares a truthy — declared and non-empty —
"clean" entry have an operation executed and contribute a result to the
reduction, in collection order; every other package is skipped and does not
affect the verdict. In the 5-package scenario (2 succeeding clean scripts,
1 failing, 2 without a truthy clean script) exactly 3 operations run and
the verdict is false. -/
theorem clean_runs_exactly_truthy_clean_scripts
    (execer : Package → String → ExecAsyncResult) (packages : List Package)
    (hs : ∀ p ∈ packages, p.scripts ≠ none) :
    cleanOps packages = Except.ok (packages.filterMap truthyClean)
    ∧ Packages.clean execer packages
        = Except.ok (reduceToSuccess
            ((packages.filterMap truthyClean).map (fun op => execer op.1 op.2)))
    ∧ (scenarioPackages.filterMap truthyClean).length = 3
    ∧ Packages.clean scenarioExecer scenarioPackages = Except.ok false := by
  have main : ∀ l : List Package, (∀ p ∈ l, p.scripts ≠ none) →
      cleanOps l = Except.ok (l.filterMap truthyClean) := by
    intro l
    induction l with
    | nil => intro _; rfl
    | cons pkg rest ih =>
      intro h
      have hpkg := h pkg (List.mem_cons_self pkg rest)
      have hrest := ih (fun q hq => h q (List.mem_cons_of_mem pkg hq))
      cases hm : pkg.scripts with
      | none => exact absurd hm hpkg
      | some m =>
        cases ht : truthyScript (m.lookup "clean") with
        | none =>
          simp [cleanOps, Package.getScript, hm, hrest, ht, List.filterMap_cons,
            truthyClean]
        | some scr =>
          simp [cleanOps, Package.getScript, hm, hrest, ht, List.filterMap_cons,
            truthyClean]
  refine ⟨main packages hs, ?_, rfl, rfl⟩
  rw [Packages.clean, main packages hs]

/-- Witness for C3 (amended) at the 5-package scenario itself. -/
theorem clean_runs_exactly_truthy_clean_scripts_witness :
    cleanOps scenarioPackages = Except.ok (scenarioPackages.filterMap truthyClean)
    ∧ Packages.clean scenarioExecer scenarioPackages
        = Except.ok (reduceToSuccess
            ((scenarioPackages.filterMap truthyClean).map
              (fun op => scenarioExecer op.1 op.2)))
    ∧ (scenarioPackages.filterMap truthyClean).length = 3
    ∧ Packages.clean scenarioExecer scenarioPackages = Except.ok false :=
  clean_runs_exactly_truthy_clean_scripts scenarioExecer scenarioPackages (by decide)

/-- Folding completion events of fulfilling tasks from counter value `c`:
the shared counter advances exactly once per completion and the emitted
lines are those of `linesFrom`. -/
theorem statusStep_foldl_ok {α β ε : Type} (items : List α) (g : α → β)
    (f : α → String) (durs : Nat → Nat) :
    ∀ (sched : List Nat), (∀ i ∈ sched, i < items.length) →
      ∀ (c : Nat) (L : List StatusLine),
      sched.foldl (statusStep items (fun a => (Except.ok (g a) : Except ε β)) f durs)
          (c, L)
        = (c + sched.length, L ++ linesFrom items f durs items.length c sched) := by
  intro sched
  induction sched with
  | nil => intro _ c L; simp [linesFrom]
  | cons i rest ih =>
    intro h c L
    have hi : i < items.length := h i (List.mem_cons_self i rest)
    have ha : items[i]? = some items[i] := List.getElem?_eq_getElem hi
    have hstep : statusStep items (fun a => (Except.ok (g a) : Except ε β)) f durs
        (c, L) i
        = (c + 1,
           L ++ [StatusLine.mk (c + 1) items.length (f items[i]) (toFixed3 (durs i))]) := by
      simp [statusStep, ha, timedExec]
    rw [List.foldl_cons, hstep,
      ih (fun k hk => h k (List.mem_cons_of_mem i hk)) (c + 1)]
    have hlf : linesFrom items f durs items.length c (i :: rest)
        = StatusLine.mk (c + 1) items.length (f items[i]) (toFixed3 (durs i))
          :: linesFrom items f durs items.length (c + 1) rest := by
      simp [linesFrom, ha]
    rw [hlf]
    simp only [Prod.mk.injEq, List.length_cons, List.append_assoc,
      List.singleton_append]
    exact ⟨by omega, by simp⟩

/-- Under a valid schedule, one line is emitted per completion. -/
theorem linesFrom_length {α : Type} (items : List α) (f : α → String)
    (durs : Nat → Nat) (total : Nat) :
    ∀ (sched : List Nat), (∀ i ∈ sched, i < items.length) → ∀ c : Nat,
      (linesFrom items f durs total c sched).length = sched.length := by
  intro sched
  induction sched with
  | nil => intro _ c; rfl
  | cons i rest ih =>
    intro h c
    have hi : i < items.length := h i (List.mem_cons_self i rest)
    have ha : items[i]? = some items[i] := List.getElem?_eq_getElem hi
    simp [linesFrom, ha, ih (fun k hk => h k (List.mem_cons_of_mem i hk))]

/-- The `k`-th emitted line reports completion index `c + k + 1`, the batch
size, the label of the task completing `k`-th, and its rendered elapsed
time. -/
theorem linesFrom_getElem? {α : Type} (items : List α) (f : α → String)
    (durs : Nat → Nat) (total : Nat) :
    ∀ (sched : List Nat), (∀ i ∈ sched, i < items.length) → ∀ (c k : Nat),
      (linesFrom items f durs total c sched)[k]?
        = (sched[k]?).bind (fun i => (items[i]?).map (fun a =>
            StatusLine.mk (c + k + 1) total (f a) (toFixed3 (durs i)))) := by
  intro sched
  induction sched with
  | nil => intro _ c k; simp [linesFrom]
  | cons i rest ih =>
    intro h c k
    have hi : i < items.length := h i (List.mem_cons_self i rest)
    have ha : items[i]? = some items[i] := List.getElem?_eq_getElem hi
    have hlf : linesFrom items f durs total c (i :: rest)
        = StatusLine.mk (c + 1) total (f items[i]) (toFixed3 (durs i))
          :: linesFrom items f durs total (c + 1) rest := by
      simp [linesFrom, ha]
    rw [hlf]
    cases k with
    | zero => simp [ha]
    | succ k2 =>
      rw [List.getElem?_cons_succ, List.getElem?_cons_succ,
        ih (fun q hq => h q (List.mem_cons_of_mem i hq)) (c + 1) k2,
        show c + 1 + k2 + 1 = c + (k2 + 1) + 1 from by omega]

/-- The completion indices of the emitted lines are consecutive, starting
at `c + 1`. -/
theorem linesFrom_doneIndex {α : Type} (items : List α) (f : α → String)
    (durs : Nat → Nat) (total : Nat) :
    ∀ (sched : List Nat), (∀ i ∈ sched, i < items.length) → ∀ c : Nat,
      (linesFrom items f durs total c sched).map StatusLine.doneIndex
        = List.range' (c + 1) sched.length := by
  intro sched
  induction sched with
  | nil => intro _ c; rfl
  | cons i rest ih =>
    intro h c
    have hi : i < items.length := h i (List.mem_cons_self i rest)
    have ha : items[i]? = some items[i] := List.getElem?_eq_getElem hi
    rw [show linesFrom items f durs total c (i :: rest)
        = StatusLine.mk (c + 1) total (f items[i]) (toFixed3 (durs i))
          :: linesFrom items f durs total (c + 1) rest from by simp [linesFrom, ha],
      List.map_cons, ih (fun q hq => h q (List.mem_cons_of_mem i hq)) (c + 1),
      List.length_cons, List.range'_succ]

/-- Claim C5: the shared completion counter `numDone` — in `queueExec`'s
`timedExec` and in `Packages.clean` — is strictly monotonically increasing,
produces the indices `1 .. N` in order with no duplicate and no skipped
value, and equals exactly `N` after all `N` included operations have
completed, whatever the completion order. -/
theorem numDone_counter_monotone_complete {α β ε : Type} (items : List α) (g : α → β)
    (f : α → String) (durs : Nat → Nat) (sched : List Nat)
    (hperm : sched.Perm (List.range items.length))
    (execer : Package → String → ExecAsyncResult) (durs2 : Nat → Nat)
    (packages : List Package) (ops : List (Package × String)) (sched2 : List Nat)
    (hops : cleanOps packages = Except.ok ops)
    (hperm2 : sched2.Perm (List.range ops.length)) :
    ((queueExecLines items (fun a => (Except.ok (g a) : Except ε β)) (some f) durs
        sched).map StatusLine.doneIndex = List.range' 1 items.length)
    ∧ ((queueExecLines items (fun a => (Except.ok (g a) : Except ε β)) (some f) durs
        sched).map StatusLine.doneIndex).Pairwise (· < ·)
    ∧ ((queueExecLines items (fun a => (Except.ok (g a) : Except ε β)) (some f) durs
        sched).map StatusLine.doneIndex).Nodup
    ∧ queueExecNumDone items (fun a => (Except.ok (g a) : Except ε β)) (some f) durs
        sched = items.length
    ∧ (∃ st : Nat × List StatusLine,
        cleanStatus execer durs2 packages sched2 = Except.ok st
        ∧ st.1 = ops.length
        ∧ st.2.map StatusLine.doneIndex = List.range' 1 ops.length) := by
  have hvalid : ∀ i ∈ sched, i < items.length := fun i hi =>
    List.mem_range.mp (hperm.mem_iff.mp hi)
  have hlen : sched.length = items.length := by
    rw [hperm.length_eq, List.length_range]
  have hfold := @statusStep_foldl_ok α β ε items g f durs sched hvalid 0 []
  have hlines : queueExecLines items (fun a => (Except.ok (g a) : Except ε β)) (some f)
      durs sched = linesFrom items f durs items.length 0 sched := by
    simp only [queueExecLines]
    rw [hfold]
    simp
  have hidx : (linesFrom items f durs items.length 0 sched).map StatusLine.doneIndex
      = List.range' 1 sched.length :=
    linesFrom_doneIndex items f durs items.length sched hvalid 0
  refine ⟨?_, ?_, ?_, ?_, ?_⟩
  · rw [hlines, hidx, hlen]
  · rw [hlines, hidx]
    exact List.pairwise_lt_range' 1 sched.length
  · rw [hlines, hidx]
    exact List.nodup_range' 1 sched.length
  · simp only [queueExecNumDone]
    rw [hfold]
    simpa using hlen
  · have hvalid2 : ∀ i ∈ sched2, i < ops.length := fun i hi =>
      List.mem_range.mp (hperm2.mem_iff.mp hi)
    have hlen2 : sched2.length = ops.length := by
      rw [hperm2.length_eq, List.length_range]
    have hfold2 := @statusStep_foldl_ok (Package × String) ExecAsyncResult JsError ops
      (fun op => execer op.1 op.2) cleanLabel durs2 sched2 hvalid2 0 []
    refine ⟨(0 + sched2.length, [] ++ linesFrom ops cleanLabel durs2 ops.length 0 sched2),
      ?_, ?_, ?_⟩
    · simp only [cleanStatus, hops]
      rw [hfold2]
    · simp [hlen2]
    · simp only [List.nil_append]
      rw [linesFrom_doneIndex ops cleanLabel durs2 ops.length sched2 hvalid2 0, hlen2]

/-- Witness for C5: a two-item reporting batch and a two-package clean pass,
both completing in reversed order. -/
theorem numDone_counter_monotone_complete_witness :
    ((queueExecLines [7, 8] (fun a => (Except.ok a : Except Unit Nat)) (some (fun a => toString a))
        (fun i => i) [1, 0]).map StatusLine.doneIndex = List.range' 1 ([7, 8] : List Nat).length)
    ∧ ((queueExecLines [7, 8] (fun a => (Except.ok a : Except Unit Nat)) (some (fun a => toString a))
        (fun i => i) [1, 0]).map StatusLine.doneIndex).Pairwise (· < ·)
    ∧ ((queueExecLines [7, 8] (fun a => (Except.ok a : Except Unit Nat)) (some (fun a => toString a))
        (fun i => i) [1, 0]).map StatusLine.doneIndex).Nodup
    ∧ queueExecNumDone [7, 8] (fun a => (Except.ok a : Except Unit Nat)) (some (fun a => toString a))
        (fun i => i) [1, 0] = ([7, 8] : List Nat).length
    ∧ (∃ st : Nat × List StatusLine,
        cleanStatus (fun _ _ => ExecAsyncResult.mk false) (fun i => i) counterPackages [1, 0]
          = Except.ok st
        ∧ st.1 = counterOps.length
        ∧ st.2.map StatusLine.doneIndex = List.range' 1 counterOps.length) :=
  numDone_counter_monotone_complete [7, 8] (fun a => a) (fun a => toString a) (fun i => i)
    [1, 0] (by decide) (fun _ _ => ExecAsyncResult.mk false) (fun i => i)
    counterPackages counterOps [1, 0] rfl (by decide)

/-- Claim C6: with no message callback the submitted operation runs
unwrapped — no status lines, counter untouched, and `timedExec` itself
returns the wrapped operation's outcome (result or error) unaltered — and
with a callback each completed task emits exactly one status line carrying
the 1-based completion index, the number of submitted items as the batch
size, the caller-supplied label, and the elapsed time rendered with exactly
three decimal places. -/
theorem queueExec_status_line_reporting {α β ε : Type} (items : List α) (g : α → β)
    (exec2 : α → Except ε β) (f : α → String) (durs : Nat → Nat) (sched : List Nat)
    (hperm : sched.Perm (List.range items.length)) :
    queueExecLines items exec2 none durs sched = []
    ∧ queueExecNumDone items exec2 none durs sched = 0
    ∧ (∀ (c t d : Nat) (a : α), (timedExec exec2 f c t d a).1 = exec2 a)
    ∧ (queueExecLines items (fun a => (Except.ok (g a) : Except ε β)) (some f) durs
        sched).length = items.length
    ∧ (∀ k : Nat,
        (queueExecLines items (fun a => (Except.ok (g a) : Except ε β)) (some f) durs
          sched)[k]?
          = (sched[k]?).bind (fun i => (items[i]?).map (fun a =>
              StatusLine.mk (k + 1) items.length (f a) (toFixed3 (durs i)))))
    ∧ (∀ ms : Nat, ∃ frac : String,
        toFixed3 ms = toString (ms / 1000) ++ "." ++ frac ∧ frac.length = 3) := by
  have hvalid : ∀ i ∈ sched, i < items.length := fun i hi =>
    List.mem_range.mp (hperm.mem_iff.mp hi)
  have hlen : sched.length = items.length := by
    rw [hperm.length_eq, List.length_range]
  have hfold := @statusStep_foldl_ok α β ε items g f durs sched hvalid 0 []
  have hlines : queueExecLines items (fun a => (Except.ok (g a) : Except ε β)) (some f)
      durs sched = linesFrom items f durs items.length 0 sched := by
    simp only [queueExecLines]
    rw [hfold]
    simp
  refine ⟨rfl, rfl, ?_, ?_, ?_, ?_⟩
  · intro c t d a
    cases hx : exec2 a <;> simp [timedExec, hx]
  · rw [hlines, linesFrom_length items f durs items.length sched hvalid 0, hlen]
  · intro k
    rw [hlines, linesFrom_getElem? items f durs items.length sched hvalid 0 k,
      show 0 + k + 1 = k + 1 from by omega]
  · intro ms
    exact ⟨String.mk [Nat.digitChar (ms % 1000 / 100), Nat.digitChar (ms % 1000 / 10 % 10),
      Nat.digitChar (ms % 10)], rfl, rfl⟩

/-- Witness for C6: two items completing in reversed order, one of the
unwrapped operations rejecting. -/
theorem queueExec_status_line_reporting_witness :
    queueExecLines [4, 5] (fun a => if a = 4 then Except.error "x" else Except.ok (a * 10))
        none (fun i => 1234 + i) [1, 0] = []
    ∧ queueExecNumDone [4, 5] (fun a => if a = 4 then Except.error "x" else Except.ok (a * 10))
        none (fun i => 1234 + i) [1, 0] = 0
    ∧ (∀ (c t d : Nat) (a : Nat),
        (timedExec (fun a => if a = 4 then Except.error "x" else Except.ok (a * 10))
          (fun a => toString a) c t d a).1
          = (fun a => if a = 4 then Except.error "x" else Except.ok (a * 10)) a)
    ∧ (queueExecLines [4, 5] (fun a => (Except.ok (a * 10) : Except String Nat))
        (some (fun a => toString a)) (fun i => 1234 + i) [1, 0]).length
        = ([4, 5] : List Nat).length
    ∧ (∀ k : Nat,
        (queueExecLines [4, 5] (fun a => (Except.ok (a * 10) : Except String Nat))
          (some (fun a => toString a)) (fun i => 1234 + i) [1, 0])[k]?
          = (([1, 0] : List Nat)[k]?).bind (fun i => (([4, 5] : List Nat)[i]?).map (fun a =>
              StatusLine.mk (k + 1) ([4, 5] : List Nat).length (toString a)
                (toFixed3 (1234 + i)))))
    ∧ (∀ ms : Nat, ∃ frac : String,
        toFixed3 ms = toString (ms / 1000) ++ "." ++ frac ∧ frac.length = 3) :=
  queueExec_status_line_reporting [4, 5] (fun a => a * 10)
    (fun a => if a = 4 then Except.error "x" else Except.ok (a * 10))
    (fun a => toString a) (fun i => 1234 + i) [1, 0] (by decide)

end FluidBuild
